import Mathlib

/-!
Verification of the fetch-resolve-filter-aggregate pipeline in
`scripts/fetch_videos.py`.

The script is embedded shallowly: the remote API boundary (`yt`) is a
function parameter, exceptions become `Except`, Python dicts become
association lists with first-match lookup where the most recent insertion
is consed at the head (so later assignments shadow earlier ones, as in a
Python dict), and the printed log becomes an explicit list of strings.
-/

namespace FetchVideos

/-- `SHORTS_MAX_SECONDS = 180`: videos <= 3 min are treated as Shorts and excluded. -/
def SHORTS_MAX_SECONDS : Nat := 180

/-- `OUTPUT_FILE = 'data/videos.json'`. -/
def OUTPUT_FILE : String := "data/videos.json"

/-- Association list modelling a Python dict built by assignment: lookup
returns the first (most recently inserted) binding for the key. -/
def dictGet (d : List (String × Nat)) (k : String) : Option Nat :=
  match d with
  | [] => none
  | (k', v) :: rest => if k = k' then some v else dictGet rest k

/-! ### Duration parsing (`parse_duration`)

`re.fullmatch(r'PT(?:(\d+)H)?(?:(\d+)M)?(?:(\d+)S)?', iso or '')`: because
each optional group is a maximal digit run followed by a distinct letter,
the regex is equivalent to the deterministic parser below (backtracking
inside `\d+` can never help, since the character after a shortened digit
run would be a digit, not the group's letter). -/

/-- Numeric value of a decimal digit character, as in Python `int`. -/
def digitVal (c : Char) : Nat := c.toNat - '0'.toNat

/-- Python `int` on a (non-empty) string of decimal digits. -/
def digitsToNat (ds : List Char) : Nat := ds.foldl (fun n c => n * 10 + digitVal c) 0

/-- Split off the maximal leading run of decimal digits. -/
def takeDigits : List Char → List Char × List Char
  | [] => ([], [])
  | c :: rest =>
    if c.isDigit then
      let p := takeDigits rest
      (c :: p.1, p.2)
    else ([], c :: rest)

/-- One optional regex group `(?:(\d+)X)?`: on a match, return the captured
value and the remaining input; otherwise return 0 (Python `int(x or 0)` for
an absent capture) and leave the input untouched. -/
def parseOptGroup (letter : Char) (l : List Char) : Nat × List Char :=
  match takeDigits l with
  | ([], _) => (0, l)
  | (ds, rest) =>
    match rest with
    | [] => (0, l)
    | c :: rest2 => if c = letter then (digitsToNat ds, rest2) else (0, l)

/-- The fullmatch against `PT(?:(\\d+)H)?(?:(\\d+)M)?(?:(\\d+)S)?` on the
character list, with the groups named `h`, `mins`, `s` as in the script:
`h * 3600 + mins * 60 + s` on a match, 0 otherwise (the leftover input after
the three optional groups must be empty for a fullmatch). -/
def parse_duration_core (chars : List Char) : Nat :=
  match chars with
  | 'P' :: 'T' :: rest =>
    if (parseOptGroup 'S' (parseOptGroup 'M' (parseOptGroup 'H' rest).2).2).2 = [] then
      (parseOptGroup 'H' rest).1 * 3600 +
        (parseOptGroup 'M' (parseOptGroup 'H' rest).2).1 * 60 +
        (parseOptGroup 'S' (parseOptGroup 'M' (parseOptGroup 'H' rest).2).2).1
    else 0
  | _ => 0

/-- `parse_duration(iso)`: convert ISO 8601 duration (e.g. PT4M13S) to total
seconds; `None` is coerced to `''` by `iso or ''`, and any string that the
pattern does not fully match yields 0. -/
def parse_duration (iso : Option String) : Nat :=
  parse_duration_core (iso.getD "").toList

/-- A non-empty run of decimal digit characters: one `\\d+` capture (`\\d`
is modelled as the ASCII digits 0-9). -/
def isDigitRun (ds : List Char) : Prop :=
  ds ≠ [] ∧ ∀ c ∈ ds, c.isDigit = true

/-- The characters contributed by one optional component of the duration
pattern: nothing when absent, the digits followed by the unit letter
when present. -/
def optPart (letter : Char) : Option (List Char) → List Char
  | none => []
  | some ds => ds ++ [letter]

/-- The numeric value of one optional component (0 when absent). -/
def optVal : Option (List Char) → Nat
  | none => 0
  | some ds => digitsToNat ds

/-- Declarative reading of the duration pattern, for stating C3: the string
is `PT` followed by optional unsigned-integer hours `H`, minutes `M`,
seconds `S` components whose values are `h`, `m`, `sec` (0 when absent). -/
def MatchesPT (s : String) (h m sec : Nat) : Prop :=
  ∃ dh dm ds : Option (List Char),
    (∀ x ∈ dh, isDigitRun x) ∧ (∀ x ∈ dm, isDigitRun x) ∧ (∀ x ∈ ds, isDigitRun x) ∧
    optVal dh = h ∧ optVal dm = m ∧ optVal ds = sec ∧
    s.toList = 'P' :: 'T' :: (optPart 'H' dh ++ (optPart 'M' dm ++ optPart 'S' ds))


/-! ### Channel resolution (`resolve_channel`) -/

/-- The three `yt('channels', ...)` query shapes: `forHandle`, `id`, `forUsername`. -/
inductive LookupStrategy
  | byHandle
  | byId
  | byUsername
deriving DecidableEq

/-- One element of the `items` array of a `channels` response, projected to
the fields the script reads. -/
structure ApiChannelItem where
  id : String
  title : String
  thumbDefaultUrl : Option String
  uploadsPlaylist : String
deriving DecidableEq

/-- The record returned by `resolve_channel` on success. -/
structure ChannelInfo where
  id : String
  name : String
  thumbnail : String
  uploads_playlist : String
deriving DecidableEq

/-- Python `s.startswith(c)` for a single-character literal `c`. -/
def startsWithChar (s : String) (c : Char) : Bool :=
  match s.toList with
  | [] => false
  | d :: _ => d = c

/-- Python `s.startswith('UC')`. -/
def startsWithUC (s : String) : Bool :=
  match s.toList with
  | 'U' :: 'C' :: _ => true
  | _ => false

/-- The if/elif/else chain choosing the lookup strategy in `resolve_channel`. -/
def dispatch (identifier : String) : LookupStrategy :=
  if startsWithChar identifier '@' then LookupStrategy.byHandle
  else if startsWithUC identifier then LookupStrategy.byId
  else LookupStrategy.byUsername


/-- `resolve_channel(identifier)`: choose a lookup, and if the response has
no items print a warning and return `None`; otherwise build the channel
record from the first item (`thumbs.get('default', {}).get('url', '')`).
The second component is the printed output. -/
def resolve_channel (api : LookupStrategy → String → List ApiChannelItem)
    (identifier : String) : Option ChannelInfo × List String :=
  match api (dispatch identifier) identifier with
  | [] => (none, ["  WARNING: Channel not found: " ++ identifier])
  | item :: _ =>
    (some { id := item.id, name := item.title,
            thumbnail := item.thumbDefaultUrl.getD "",
            uploads_playlist := item.uploadsPlaylist }, [])

/-! ### Duration lookup (`get_durations`) -/

/-- The batches produced by `for i in range(0, len(video_ids), 50): video_ids[i:i+50]`,
written with a fuel argument (one unit per loop iteration; `video_ids.length`
units are always enough) so the function reduces by iota in the kernel. -/
def chunksGo : Nat → List String → List (List String)
  | 0, _ => []
  | _ + 1, [] => []
  | fuel + 1, c :: rest => (c :: rest).take 50 :: chunksGo fuel ((c :: rest).drop 50)

/-- The consecutive `video_ids[i:i+50]` slices visited by `get_durations`. -/
def chunks50 (video_ids : List String) : List (List String) :=
  chunksGo video_ids.length video_ids

/-- `get_durations(video_ids)`: fetch durations batched 50 at a time.
`durFetch batch` stands for the `(item['id'], item['contentDetails']['duration'])`
pairs of one `yt('videos', ...)` response; each is assigned into the dict. -/
def get_durations (durFetch : List String → List (String × String))
    (video_ids : List String) : List (String × Nat) :=
  (chunks50 video_ids).foldl
    (fun durations batch =>
      (durFetch batch).foldl
        (fun durations item => (item.1, parse_duration (some item.2)) :: durations)
        durations)
    []

/-! ### Upload fetching and Shorts filtering (`fetch_videos`) -/

/-- One element of a `playlistItems` response, projected to the fields read. -/
structure PlaylistItem where
  videoId : String
  title : String
  thumbMedium : Option String
  thumbHigh : Option String
  thumbDefault : Option String
  publishedAt : String
deriving DecidableEq

/-- The video record appended for each playlist item. -/
structure Video where
  id : String
  title : String
  thumbnail : String
  published_at : String
  url : String
deriving DecidableEq

/-- The record built for one playlist item: thumbnail falls back
medium → high → default → `''`, and the watch url is derived from the id. -/
def mkVideo (item : PlaylistItem) : Video :=
  { id := item.videoId,
    title := item.title,
    thumbnail := ((item.thumbMedium.orElse fun _ => item.thumbHigh).orElse
      fun _ => item.thumbDefault).getD "",
    published_at := item.publishedAt,
    url := "https://www.youtube.com/watch?v=" ++ item.videoId }

/-- The list built by the first loop of `fetch_videos`. -/
def projectVideos (items : List PlaylistItem) : List Video :=
  items.map mkVideo

/-- The comprehension `[v for v in videos if durations.get(v['id'], 9999) > SHORTS_MAX_SECONDS]`. -/
def filterShorts (durations : List (String × Nat)) (videos : List Video) : List Video :=
  videos.filter (fun v => (dictGet durations v.id).getD 9999 > SHORTS_MAX_SECONDS)

/-- `fetch_videos(playlist_id)`: project the playlist response to video
records, look up durations for their ids, and drop Shorts. -/
def fetch_videos (playlistApi : String → List PlaylistItem)
    (durFetch : List String → List (String × String)) (playlist_id : String) : List Video :=
  let videos := projectVideos (playlistApi playlist_id)
  let durations := get_durations durFetch (videos.map (fun v => v.id))
  filterShorts durations videos

/-! ### Identifier loading (`read_identifiers`) -/

/-- Python `str.strip()`: remove leading and trailing whitespace. -/
def pystrip (s : String) : String :=
  String.mk (((s.toList.dropWhile Char.isWhitespace).reverse.dropWhile
    Char.isWhitespace).reverse)

/-- `read_identifiers()` on the lines of `channels.txt`:
`[line.strip() for line in f if line.strip() and not line.startswith('#')]`.
Note the comment test inspects the raw line, before stripping. -/
def read_identifiers : List String → List String
  | [] => []
  | line :: rest =>
    if pystrip line ≠ "" ∧ startsWithChar line '#' = false then
      pystrip line :: read_identifiers rest
    else
      read_identifiers rest

/-- Rendering of the spec sentence for the loader, for comparison: "the
ordered sequence of trimmed lines that are non-empty and are not comments
(leading `#`)", reading the comment test as applying to the trimmed line. -/
def read_identifiers_spec (lines : List String) : List String :=
  (lines.map pystrip).filter (fun t => t ≠ "" && startsWithChar t '#' = false)

/-! ### The driver (`main`) -/

/-- One entry of the `channels_data` list. -/
structure ChannelResult where
  id : String
  name : String
  thumbnail : String
  videos : List Video
deriving DecidableEq

/-- The per-identifier loop of `main`. `resolve` abstracts
`resolve_channel` (`Except.error` = an exception escaping it, `Except.ok none`
= the not-found sentinel) and `fetch` abstracts `fetch_videos` on the
channel's uploads playlist, including its internal duration lookup
(`Except.error` = an exception during upload fetch or duration
classification). The `try/except` around the body catches any failure,
prints an error line and moves on. Returns the accumulated
`channels_data` and the printed log. -/
def processIdentifiers (resolve : String → Except String (Option ChannelInfo))
    (fetch : String → Except String (List Video)) :
    List String → List ChannelResult × List String
  | [] => ([], [])
  | ident :: rest =>
    let step : List ChannelResult × List String :=
      match resolve ident with
      | Except.error e => ([], ["  ERROR processing " ++ ident ++ ": " ++ e])
      | Except.ok none => ([], [])
      | Except.ok (some channel) =>
        match fetch channel.uploads_playlist with
        | Except.error e => ([], ["  ERROR processing " ++ ident ++ ": " ++ e])
        | Except.ok videos =>
          ([{ id := channel.id, name := channel.name,
              thumbnail := channel.thumbnail, videos := videos }],
           ["  → " ++ channel.name ++ ": " ++ toString videos.length ++ " videos"])
    let tail := processIdentifiers resolve fetch rest
    (step.1 ++ tail.1, ("Processing: " ++ ident) :: (step.2 ++ tail.2))

/-- Observable outcome of one run of `main`: the process exit code, the
channel list written to `data/videos.json` (`none` when the file is never
written; the `last_updated` wall-clock timestamp is not modelled), and the
printed log. -/
structure RunResult where
  exitCode : Nat
  written : Option (List ChannelResult)
  log : List String
deriving DecidableEq

/-- `main()`, starting from the lines of `channels.txt`: load identifiers,
return early (exit 0, nothing written) when none are configured, otherwise
process every identifier and write the snapshot. -/
def main (resolve : String → Except String (Option ChannelInfo))
    (fetch : String → Except String (List Video)) (lines : List String) : RunResult :=
  let identifiers := read_identifiers lines
  if identifiers = [] then
    { exitCode := 0, written := none,
      log := ["No channels configured. Add channels to channels.txt."] }
  else
    let p := processIdentifiers resolve fetch identifiers
    { exitCode := 0, written := some p.1,
      log := p.2 ++ ["Done. Saved " ++ toString p.1.length ++ " channels to " ++ OUTPUT_FILE] }

/-! ## Helper lemmas -/

theorem processIdentifiers_fst_append (resolve : String → Except String (Option ChannelInfo))
    (fetch : String → Except String (List Video)) (l1 l2 : List String) :
    (processIdentifiers resolve fetch (l1 ++ l2)).1 =
      (processIdentifiers resolve fetch l1).1 ++ (processIdentifiers resolve fetch l2).1 := by
  induction l1 with
  | nil => simp [processIdentifiers]
  | cons i rest ih => simp [processIdentifiers, ih]

theorem processIdentifiers_fst_single_success (resolve : String → Except String (Option ChannelInfo))
    (fetch : String → Except String (List Video)) (b : String) (ch : ChannelInfo)
    (videos : List Video) (h1 : resolve b = Except.ok (some ch))
    (h2 : fetch ch.uploads_playlist = Except.ok videos) :
    (processIdentifiers resolve fetch [b]).1 =
      [{ id := ch.id, name := ch.name, thumbnail := ch.thumbnail, videos := videos }] := by
  simp [processIdentifiers, h1, h2]

theorem main_written_of_skipped (resolve : String → Except String (Option ChannelInfo))
    (fetch : String → Except String (List Video)) (lines ids1 ids2 : List String) (b : String)
    (hread : read_identifiers lines = ids1 ++ b :: ids2)
    (hskip : (processIdentifiers resolve fetch [b]).1 = []) :
    (main resolve fetch lines).exitCode = 0 ∧
    (main resolve fetch lines).written =
      some ((processIdentifiers resolve fetch ids1).1 ++ (processIdentifiers resolve fetch ids2).1) := by
  have hne : read_identifiers lines ≠ [] := by simp [hread]
  have hsplit : (processIdentifiers resolve fetch (ids1 ++ b :: ids2)).1 =
      (processIdentifiers resolve fetch ids1).1 ++ (processIdentifiers resolve fetch ids2).1 := by
    have hb : ids1 ++ b :: ids2 = ids1 ++ ([b] ++ ids2) := by simp
    rw [hb, processIdentifiers_fst_append, processIdentifiers_fst_append, hskip]
    simp
  constructor
  · simp [main, hne]
  · simp [main, hne, hread, hsplit]

/-! ## Claims -/

/-- C5: for every channel identifier string, the resolver's lookup strategy is
chosen by a first-match-wins dispatch: an identifier starting with `@` uses
handle lookup; otherwise one starting with `UC` uses canonical-id lookup;
otherwise legacy-username lookup is used. -/
theorem dispatch_first_match_wins :
    (∀ s, startsWithChar s '@' = true → dispatch s = LookupStrategy.byHandle) ∧
    (∀ s, startsWithChar s '@' = false → startsWithUC s = true →
      dispatch s = LookupStrategy.byId) ∧
    (∀ s, startsWithChar s '@' = false → startsWithUC s = false →
      dispatch s = LookupStrategy.byUsername) := by
  refine ⟨fun s h => ?_, fun s h1 h2 => ?_, fun s h1 h2 => ?_⟩ <;> simp [dispatch, *]

/-- Witness for C5 at the identifiers `"@alice"`, `"UCabc"`, `"alice"`. -/
theorem dispatch_first_match_wins_witness :
    dispatch "@alice" = LookupStrategy.byHandle ∧
    dispatch "UCabc" = LookupStrategy.byId ∧
    dispatch "alice" = LookupStrategy.byUsername :=
  ⟨dispatch_first_match_wins.1 "@alice" (by decide),
   dispatch_first_match_wins.2.1 "UCabc" (by decide) (by decide),
   dispatch_first_match_wins.2.2 "alice" (by decide) (by decide)⟩

/-- C7 (counterexample): the loader checks `line.startswith('#')` on the RAW
line, so a comment indented by whitespace is not ignored: on the single line
`"  #c"` the loader returns `["#c"]`, while the claimed description (comment
test on the trimmed form) returns `[]`. -/
theorem read_identifiers_claim_false :
    read_identifiers ["  #c"] = ["#c"] ∧ read_identifiers_spec ["  #c"] = [] ∧
    read_identifiers ["  #c"] ≠ read_identifiers_spec ["  #c"] := by decide

/-- C7 (amended): the loader returns exactly the ordered sequence of trimmed
lines whose trimmed form is non-empty and whose RAW (untrimmed) form does not
start with `#`. -/
theorem read_identifiers_correct (lines : List String) :
    read_identifiers lines =
      (lines.filter (fun l => (pystrip l != "") && !(startsWithChar l '#'))).map pystrip := by
  induction lines with
  | nil => rfl
  | cons line rest ih =>
    by_cases h1 : pystrip line = ""
    · simp [read_identifiers, List.filter_cons, h1, ih]
    · by_cases h2 : startsWithChar line '#'
      · simp [read_identifiers, List.filter_cons, h1, h2, ih]
      · simp [read_identifiers, List.filter_cons, h1, h2, ih]

/-- C9: when the loader yields zero identifiers, `main` reports that nothing
is configured, exits successfully, and never writes the snapshot file. -/
theorem empty_config_writes_nothing (resolve : String → Except String (Option ChannelInfo))
    (fetch : String → Except String (List Video)) (lines : List String)
    (hempty : read_identifiers lines = []) :
    (main resolve fetch lines).exitCode = 0 ∧
    (main resolve fetch lines).written = none ∧
    (main resolve fetch lines).log = ["No channels configured. Add channels to channels.txt."] := by
  simp [main, hempty]

/-- Witness for C9 on a configuration of one comment line, one empty line and
one blank line. -/
theorem empty_config_writes_nothing_witness :
    (main (fun _ => Except.ok none) (fun _ => Except.ok []) ["# a", "", "   "]).exitCode = 0 ∧
    (main (fun _ => Except.ok none) (fun _ => Except.ok []) ["# a", "", "   "]).written = none := by
  have h := empty_config_writes_nothing (fun _ => Except.ok none) (fun _ => Except.ok [])
    ["# a", "", "   "] (by decide)
  exact ⟨h.1, h.2.1⟩

/-- C1: if processing one identifier fails (an exception during resolution, or
during upload fetch / duration classification after a successful resolution),
that identifier contributes no ChannelResult at all, the remaining
identifiers are processed unchanged and in order, and the run completes with
exit code 0; in particular for identifiers `[a, b, c]` where only `b` fails,
the snapshot holds exactly the results of `a` and `c`, in that order. -/
theorem failing_identifier_isolated (resolve : String → Except String (Option ChannelInfo))
    (fetch : String → Except String (List Video)) (lines ids1 ids2 : List String) (b : String)
    (hread : read_identifiers lines = ids1 ++ b :: ids2)
    (hfail : (∃ e, resolve b = Except.error e) ∨
      ∃ ch e, resolve b = Except.ok (some ch) ∧ fetch ch.uploads_playlist = Except.error e) :
    (main resolve fetch lines).exitCode = 0 ∧
    (main resolve fetch lines).written =
      some ((processIdentifiers resolve fetch ids1).1 ++ (processIdentifiers resolve fetch ids2).1) ∧
    ∀ a c cha chc va vc, ids1 = [a] → ids2 = [c] →
      resolve a = Except.ok (some cha) → fetch cha.uploads_playlist = Except.ok va →
      resolve c = Except.ok (some chc) → fetch chc.uploads_playlist = Except.ok vc →
      (main resolve fetch lines).written =
        some [{ id := cha.id, name := cha.name, thumbnail := cha.thumbnail, videos := va },
              { id := chc.id, name := chc.name, thumbnail := chc.thumbnail, videos := vc }] := by
  have hskip : (processIdentifiers resolve fetch [b]).1 = [] := by
    rcases hfail with ⟨e, he⟩ | ⟨ch, e, hok, herr⟩
    · simp [processIdentifiers, he]
    · simp [processIdentifiers, hok, herr]
  have hmain := main_written_of_skipped resolve fetch lines ids1 ids2 b hread hskip
  refine ⟨hmain.1, hmain.2, ?_⟩
  intro a c cha chc va vc h1 h2 hra hfa hrc hfc
  subst h1; subst h2
  rw [hmain.2, processIdentifiers_fst_single_success resolve fetch a cha va hra hfa,
    processIdentifiers_fst_single_success resolve fetch c chc vc hrc hfc]
  rfl

/-- Witness for C1: three identifiers `a`, `b`, `c`; every identifier
resolves, but the upload fetch for `b` raises; the snapshot holds exactly the
results of `a` and `c`, in order, and the exit code is 0. -/
theorem failing_identifier_isolated_witness :
    (main (fun i => Except.ok (some { id := i, name := i, thumbnail := "", uploads_playlist := i }))
      (fun p => if p = "b" then Except.error "boom" else Except.ok [])
      ["a", "b", "c"]).exitCode = 0 ∧
    (main (fun i => Except.ok (some { id := i, name := i, thumbnail := "", uploads_playlist := i }))
      (fun p => if p = "b" then Except.error "boom" else Except.ok [])
      ["a", "b", "c"]).written =
      some [{ id := "a", name := "a", thumbnail := "", videos := [] },
            { id := "c", name := "c", thumbnail := "", videos := [] }] := by
  have h := failing_identifier_isolated
    (fun i => Except.ok (some { id := i, name := i, thumbnail := "", uploads_playlist := i }))
    (fun p => if p = "b" then Except.error "boom" else Except.ok [])
    ["a", "b", "c"] ["a"] ["c"] "b" (by decide)
    (Or.inr ⟨{ id := "b", name := "b", thumbnail := "", uploads_playlist := "b" }, "boom",
      rfl, rfl⟩)
  exact ⟨h.1, h.2.2 "a" "c"
    { id := "a", name := "a", thumbnail := "", uploads_playlist := "a" }
    { id := "c", name := "c", thumbnail := "", uploads_playlist := "c" }
    [] [] rfl rfl rfl rfl rfl rfl⟩

/-- C8: when the remote lookup returns zero results, `resolve_channel` returns
the `None` sentinel (no exception) and prints a warning naming the
identifier, and the driver skips that identifier and processes the rest
unchanged, completing with exit code 0. -/
theorem not_found_sentinel_skips (api : LookupStrategy → String → List ApiChannelItem)
    (ident : String) (hempty : api (dispatch ident) ident = [])
    (resolve : String → Except String (Option ChannelInfo))
    (fetch : String → Except String (List Video)) (lines ids1 ids2 : List String)
    (hres : resolve ident = Except.ok (resolve_channel api ident).1)
    (hread : read_identifiers lines = ids1 ++ ident :: ids2) :
    (resolve_channel api ident).1 = none ∧
    ("  WARNING: Channel not found: " ++ ident) ∈ (resolve_channel api ident).2 ∧
    (main resolve fetch lines).exitCode = 0 ∧
    (main resolve fetch lines).written =
      some ((processIdentifiers resolve fetch ids1).1 ++ (processIdentifiers resolve fetch ids2).1) := by
  have hrc : resolve_channel api ident =
      (none, ["  WARNING: Channel not found: " ++ ident]) := by
    simp [resolve_channel, hempty]
  have hnone : resolve ident = Except.ok none := by rw [hres, hrc]
  have hskip : (processIdentifiers resolve fetch [ident]).1 = [] := by
    simp [processIdentifiers, hnone]
  have hmain := main_written_of_skipped resolve fetch lines ids1 ids2 ident hread hskip
  exact ⟨by rw [hrc], by rw [hrc]; simp, hmain.1, hmain.2⟩

/-- Witness for C8: a remote lookup that returns no items for the single
configured identifier `x`. -/
theorem not_found_sentinel_skips_witness :
    (resolve_channel (fun _ _ => []) "x").1 = none ∧
    (main (fun i => Except.ok (resolve_channel (fun _ _ => []) i).1)
      (fun _ => Except.ok []) ["x"]).exitCode = 0 ∧
    (main (fun i => Except.ok (resolve_channel (fun _ _ => []) i).1)
      (fun _ => Except.ok []) ["x"]).written = some [] := by
  have h := not_found_sentinel_skips (fun _ _ => []) "x" rfl
    (fun i => Except.ok (resolve_channel (fun _ _ => []) i).1)
    (fun _ => Except.ok []) ["x"] [] [] rfl (by decide)
  exact ⟨h.1, h.2.2.1, by rw [h.2.2.2]; rfl⟩

/-- C10: an identifier that resolves successfully and whose upload fetch
(including duration classification) completes contributes its ChannelResult
to the snapshot even when the filtered video list is empty: the channel
appears with an empty videos sequence rather than being omitted. -/
theorem resolved_channel_always_emitted (resolve : String → Except String (Option ChannelInfo))
    (fetch : String → Except String (List Video)) (lines ids1 ids2 : List String)
    (ident : String) (ch : ChannelInfo) (videos : List Video)
    (hread : read_identifiers lines = ids1 ++ ident :: ids2)
    (hres : resolve ident = Except.ok (some ch))
    (hfetch : fetch ch.uploads_playlist = Except.ok videos) :
    ∃ pre post, (main resolve fetch lines).written =
      some (pre ++ ({ id := ch.id, name := ch.name, thumbnail := ch.thumbnail, videos := videos } : ChannelResult) :: post) := by
  have hne : read_identifiers lines ≠ [] := by simp [hread]
  refine ⟨(processIdentifiers resolve fetch ids1).1, (processIdentifiers resolve fetch ids2).1, ?_⟩
  have hb : ids1 ++ ident :: ids2 = ids1 ++ ([ident] ++ ids2) := by simp
  have hsplit : (processIdentifiers resolve fetch (ids1 ++ ident :: ids2)).1 =
      (processIdentifiers resolve fetch ids1).1 ++
        ((processIdentifiers resolve fetch [ident]).1 ++ (processIdentifiers resolve fetch ids2).1) := by
    rw [hb, processIdentifiers_fst_append, processIdentifiers_fst_append]
  rw [show (main resolve fetch lines).written =
      some (processIdentifiers resolve fetch (read_identifiers lines)).1 by simp [main, hne],
    hread, hsplit, processIdentifiers_fst_single_success resolve fetch ident ch videos hres hfetch]
  simp

/-- Witness for C10: one identifier whose channel has zero (filtered) videos
still appears in the snapshot, with an empty videos sequence. -/
theorem resolved_channel_always_emitted_witness :
    ∃ pre post,
      (main (fun _ => Except.ok (some { id := "UC1", name := "A", thumbnail := "t", uploads_playlist := "PL" }))
        (fun _ => Except.ok []) ["chan"]).written =
        some (pre ++ ({ id := "UC1", name := "A", thumbnail := "t", videos := [] } : ChannelResult) :: post) :=
  resolved_channel_always_emitted
    (fun _ => Except.ok (some { id := "UC1", name := "A", thumbnail := "t", uploads_playlist := "PL" }))
    (fun _ => Except.ok []) ["chan"] [] [] "chan"
    { id := "UC1", name := "A", thumbnail := "t", uploads_playlist := "PL" } []
    (by decide) rfl rfl

/-- C2: a fetched video whose id maps to duration `d` in the merged duration
mapping appears in the channel's output videos iff `d` strictly exceeds 180
seconds. -/
theorem fetch_videos_longform_iff (playlistApi : String → List PlaylistItem)
    (durFetch : List String → List (String × String)) (playlist_id : String)
    (v : Video) (d : Nat)
    (hv : v ∈ projectVideos (playlistApi playlist_id))
    (hd : dictGet (get_durations durFetch
      ((projectVideos (playlistApi playlist_id)).map (fun x => x.id))) v.id = some d) :
    (v ∈ fetch_videos playlistApi durFetch playlist_id ↔ d > 180) := by
  simp [fetch_videos, filterShorts, List.mem_filter, hv, hd, SHORTS_MAX_SECONDS]

/-- Witness for C2: three videos of durations 180 (`PT3M`), 181 (`PT3M1S`)
and 3 (`PT3S`) seconds; only the 181-second video survives the filter. -/
theorem fetch_videos_longform_iff_witness :
    (({ id := "v181", title := "t", thumbnail := "", published_at := "p", url := "https://www.youtube.com/watch?v=v181" } : Video) ∈
      fetch_videos (fun _ => [⟨"v180", "t", none, none, none, "p"⟩, ⟨"v181", "t", none, none, none, "p"⟩, ⟨"v3", "t", none, none, none, "p"⟩])
        (fun _ => [("v180", "PT3M"), ("v181", "PT3M1S"), ("v3", "PT3S")]) "PL") ∧
    ¬ (({ id := "v180", title := "t", thumbnail := "", published_at := "p", url := "https://www.youtube.com/watch?v=v180" } : Video) ∈
      fetch_videos (fun _ => [⟨"v180", "t", none, none, none, "p"⟩, ⟨"v181", "t", none, none, none, "p"⟩, ⟨"v3", "t", none, none, none, "p"⟩])
        (fun _ => [("v180", "PT3M"), ("v181", "PT3M1S"), ("v3", "PT3S")]) "PL") ∧
    ¬ (({ id := "v3", title := "t", thumbnail := "", published_at := "p", url := "https://www.youtube.com/watch?v=v3" } : Video) ∈
      fetch_videos (fun _ => [⟨"v180", "t", none, none, none, "p"⟩, ⟨"v181", "t", none, none, none, "p"⟩, ⟨"v3", "t", none, none, none, "p"⟩])
        (fun _ => [("v180", "PT3M"), ("v181", "PT3M1S"), ("v3", "PT3S")]) "PL") := by
  refine ⟨?_, fun hmem => ?_, fun hmem => ?_⟩
  · exact (fetch_videos_longform_iff _ _ "PL" _ 181 (by decide) (by decide)).mpr (by decide)
  · exact absurd ((fetch_videos_longform_iff _ _ "PL" _ 180 (by decide) (by decide)).mp hmem)
      (by decide)
  · exact absurd ((fetch_videos_longform_iff _ _ "PL" _ 3 (by decide) (by decide)).mp hmem)
      (by decide)

/-- C6: a fetched video whose id is absent from the merged duration mapping
is given the sentinel duration 9999 (which exceeds the 180-second threshold)
and is therefore kept. -/
theorem missing_duration_video_kept (playlistApi : String → List PlaylistItem)
    (durFetch : List String → List (String × String)) (playlist_id : String) (v : Video)
    (hv : v ∈ projectVideos (playlistApi playlist_id))
    (hd : dictGet (get_durations durFetch
      ((projectVideos (playlistApi playlist_id)).map (fun x => x.id))) v.id = none) :
    v ∈ fetch_videos playlistApi durFetch playlist_id := by
  simp [fetch_videos, filterShorts, List.mem_filter, hv, hd, SHORTS_MAX_SECONDS]

/-- Witness for C6: the duration lookup returns nothing for the only video,
yet the video is kept. -/
theorem missing_duration_video_kept_witness :
    ({ id := "vX", title := "t", thumbnail := "", published_at := "p", url := "https://www.youtube.com/watch?v=vX" } : Video) ∈
      fetch_videos (fun _ => [⟨"vX", "t", none, none, none, "p"⟩]) (fun _ => []) "PL" :=
  missing_duration_video_kept (fun _ => [⟨"vX", "t", none, none, none, "p"⟩]) (fun _ => [])
    "PL" _ (by decide) (by decide)

/-! ## Batching lemmas for `get_durations` -/

theorem chunksGo_nil (fuel : Nat) : chunksGo fuel [] = [] := by
  cases fuel <;> rfl

theorem chunksGo_congr (f1 : Nat) : ∀ (f2 : Nat) (l : List String), l.length ≤ f1 →
    l.length ≤ f2 → chunksGo f1 l = chunksGo f2 l := by
  induction f1 with
  | zero =>
    intro f2 l h1 _
    have : l = [] := List.eq_nil_of_length_eq_zero (Nat.le_zero.mp h1)
    subst this
    rw [chunksGo_nil, chunksGo_nil]
  | succ f ih =>
    intro f2 l h1 h2
    cases l with
    | nil => rw [chunksGo_nil, chunksGo_nil]
    | cons c rest =>
      cases f2 with
      | zero => simp at h2
      | succ f2' =>
        show (c :: rest).take 50 :: chunksGo f ((c :: rest).drop 50) =
          (c :: rest).take 50 :: chunksGo f2' ((c :: rest).drop 50)
        have hlen : ((c :: rest).drop 50).length = (c :: rest).length - 50 :=
          List.length_drop 50 (c :: rest)
        rw [ih f2' ((c :: rest).drop 50) (by simp at h1 ⊢; omega) (by simp at h2 ⊢; omega)]

theorem chunks50_cons (c : String) (rest : List String) :
    chunks50 (c :: rest) = (c :: rest).take 50 :: chunks50 ((c :: rest).drop 50) := by
  show chunksGo (rest.length + 1) (c :: rest) = _
  show (c :: rest).take 50 :: chunksGo rest.length ((c :: rest).drop 50) = _
  rw [chunksGo_congr rest.length ((c :: rest).drop 50).length ((c :: rest).drop 50)
    (by simp only [List.length_drop, List.length_cons]; omega) (Nat.le_refl _)]
  rfl

theorem chunks50_length_aux (n : Nat) : ∀ l : List String, l.length ≤ n →
    (chunks50 l).length = (l.length + 49) / 50 := by
  induction n with
  | zero =>
    intro l h
    have : l = [] := List.eq_nil_of_length_eq_zero (Nat.le_zero.mp h)
    subst this; rfl
  | succ n ih =>
    intro l h
    cases l with
    | nil => rfl
    | cons c rest =>
      rw [chunks50_cons, List.length_cons,
        ih ((c :: rest).drop 50) (by simp at h ⊢; omega)]
      have hlen : ((c :: rest).drop 50).length = (c :: rest).length - 50 :=
        List.length_drop 50 (c :: rest)
      rw [hlen]
      simp only [List.length_cons]
      omega

theorem chunks50_sizes_aux (n : Nat) : ∀ l : List String, l.length ≤ n →
    ∀ ck ∈ chunks50 l, ck.length ≤ 50 := by
  induction n with
  | zero =>
    intro l h
    have : l = [] := List.eq_nil_of_length_eq_zero (Nat.le_zero.mp h)
    subst this; intro ck hck; simp [chunks50, chunksGo_nil] at hck
  | succ n ih =>
    intro l h
    cases l with
    | nil => intro ck hck; simp [chunks50, chunksGo_nil] at hck
    | cons c rest =>
      rw [chunks50_cons]
      intro ck hck
      rcases List.mem_cons.mp hck with hhd | htl
      · subst hhd; simp
      · exact ih ((c :: rest).drop 50) (by simp at h ⊢; omega) ck htl

theorem chunks50_join_aux (n : Nat) : ∀ l : List String, l.length ≤ n →
    (chunks50 l).flatten = l := by
  induction n with
  | zero =>
    intro l h
    have : l = [] := List.eq_nil_of_length_eq_zero (Nat.le_zero.mp h)
    subst this; rfl
  | succ n ih =>
    intro l h
    cases l with
    | nil => rfl
    | cons c rest =>
      rw [chunks50_cons, List.flatten_cons, ih ((c :: rest).drop 50) (by simp at h ⊢; omega)]
      exact List.take_append_drop 50 (c :: rest)

theorem chunks50_map_length_cons (l : List String) (h : l ≠ []) :
    (chunks50 l).map List.length =
      min 50 l.length :: (chunks50 (l.drop 50)).map List.length := by
  cases l with
  | nil => exact absurd rfl h
  | cons c rest =>
    rw [chunks50_cons, List.map_cons, List.length_take]

theorem dictGet_isSome_inner (items : List (String × String)) (id : String) :
    ∀ d : List (String × Nat),
    ((dictGet d id).isSome = true ∨ ∃ p ∈ items, p.1 = id) →
    (dictGet (items.foldl
      (fun durations item => (item.1, parse_duration (some item.2)) :: durations) d)
      id).isSome = true := by
  induction items with
  | nil =>
    intro d h
    rcases h with h | ⟨p, hp, _⟩
    · exact h
    · exact absurd hp (List.not_mem_nil p)
  | cons it rest ih =>
    intro d h
    apply ih
    rcases h with h | ⟨p, hp, hpid⟩
    · left
      by_cases hk : id = it.1 <;> simp [dictGet, hk, h]
    · rcases List.mem_cons.mp hp with hhd | htl
      · left
        subst hhd
        simp [dictGet, hpid.symm]
      · exact Or.inr ⟨p, htl, hpid⟩

theorem dictGet_isSome_outer (durFetch : List String → List (String × String))
    (chks : List (List String)) (id : String) :
    ∀ d : List (String × Nat),
    ((dictGet d id).isSome = true ∨ ∃ batch ∈ chks, ∃ p ∈ durFetch batch, p.1 = id) →
    (dictGet (chks.foldl
      (fun durations batch =>
        (durFetch batch).foldl
          (fun durations item => (item.1, parse_duration (some item.2)) :: durations)
          durations) d) id).isSome = true := by
  induction chks with
  | nil =>
    intro d h
    rcases h with h | ⟨batch, hb, _⟩
    · exact h
    · exact absurd hb (List.not_mem_nil batch)
  | cons b rest ih =>
    intro d h
    apply ih
    rcases h with h | ⟨batch, hb, hp⟩
    · exact Or.inl (dictGet_isSome_inner (durFetch b) id d (Or.inl h))
    · rcases List.mem_cons.mp hb with hhd | htl
      · subst hhd
        exact Or.inl (dictGet_isSome_inner (durFetch batch) id d (Or.inr hp))
      · exact Or.inr ⟨batch, htl, hp⟩

/-- C4: the duration lookup partitions the id list into consecutive chunks of
at most 50 ids, one remote call per chunk, so the number of calls is
`⌈n/50⌉`; the chunks concatenate back to the id list; for 120 ids the call
sizes are exactly 50, 50, 20; and if every call's response covers every
requested id, the merged mapping contains every id of the list. -/
theorem get_durations_batching (durFetch : List String → List (String × String))
    (ids : List String)
    (hcov : ∀ batch ∈ chunks50 ids, ∀ id ∈ batch, ∃ p ∈ durFetch batch, p.1 = id) :
    (chunks50 ids).length = (ids.length + 49) / 50 ∧
    (∀ ck ∈ chunks50 ids, ck.length ≤ 50) ∧
    (chunks50 ids).flatten = ids ∧
    (ids.length = 120 → (chunks50 ids).map List.length = [50, 50, 20]) ∧
    ∀ id ∈ ids, (dictGet (get_durations durFetch ids) id).isSome = true := by
  refine ⟨chunks50_length_aux ids.length ids (Nat.le_refl _),
    chunks50_sizes_aux ids.length ids (Nat.le_refl _),
    chunks50_join_aux ids.length ids (Nat.le_refl _), ?_, ?_⟩
  · intro h120
    have hne1 : ids ≠ [] := by intro h; rw [h] at h120; simp at h120
    have hl1 : (ids.drop 50).length = 70 := by simp [h120]
    have hne2 : ids.drop 50 ≠ [] := by intro h; rw [h] at hl1; simp at hl1
    have hl2 : ((ids.drop 50).drop 50).length = 20 := by simp [h120]
    have hne3 : (ids.drop 50).drop 50 ≠ [] := by intro h; rw [h] at hl2; simp at hl2
    have hl3 : (((ids.drop 50).drop 50).drop 50) = [] :=
      List.eq_nil_of_length_eq_zero (by simp [h120])
    rw [chunks50_map_length_cons ids hne1, chunks50_map_length_cons _ hne2,
      chunks50_map_length_cons _ hne3, hl3, h120, hl1, hl2]
    rfl
  · intro id hid
    have hjoin : (chunks50 ids).flatten = ids := chunks50_join_aux ids.length ids (Nat.le_refl _)
    have hmem : ∃ batch ∈ chunks50 ids, id ∈ batch := by
      rw [← hjoin] at hid
      exact List.mem_flatten.mp hid
    rcases hmem with ⟨batch, hb, hid'⟩
    exact dictGet_isSome_outer durFetch (chunks50 ids) id []
      (Or.inr ⟨batch, hb, hcov batch hb id hid'⟩)

/-- Witness for C4 on 120 identical ids with a lookup echoing each batch:
three calls of sizes 50, 50, 20 and a merged mapping answering the id. -/
theorem get_durations_batching_witness :
    (chunks50 (List.replicate 120 "i")).map List.length = [50, 50, 20] ∧
    (dictGet (get_durations (fun batch => batch.map (fun i => (i, "PT1S")))
      (List.replicate 120 "i")) "i").isSome = true := by
  have h := get_durations_batching (fun batch => batch.map (fun i => (i, "PT1S")))
    (List.replicate 120 "i") (by decide)
  exact ⟨h.2.2.2.1 (by decide), h.2.2.2.2 "i" (by decide)⟩

/-! ## Duration-parser lemmas -/

theorem takeDigits_append (ds rest : List Char) (hds : ∀ c ∈ ds, c.isDigit = true)
    (hrest : rest = [] ∨ ∃ c rest2, rest = c :: rest2 ∧ c.isDigit = false) :
    takeDigits (ds ++ rest) = (ds, rest) := by
  induction ds with
  | nil =>
    rcases hrest with h | ⟨c, rest2, hr, hc⟩
    · subst h; rfl
    · subst hr; simp [takeDigits, hc]
  | cons d ds' ih =>
    have hd : d.isDigit = true := hds d (List.mem_cons_self d ds')
    simp [takeDigits, hd, ih (fun c hc => hds c (List.mem_cons_of_mem d hc))]

theorem parseOptGroup_part (letter : Char) (hl : letter.isDigit = false)
    (ds rest : List Char) (hds : isDigitRun ds) :
    parseOptGroup letter (ds ++ letter :: rest) = (digitsToNat ds, rest) := by
  have ht : takeDigits (ds ++ letter :: rest) = (ds, letter :: rest) :=
    takeDigits_append ds (letter :: rest) hds.2 (Or.inr ⟨letter, rest, rfl, hl⟩)
  obtain ⟨hne, _⟩ := hds
  cases ds with
  | nil => exact absurd rfl hne
  | cons d ds' =>
    simp only [List.cons_append] at ht
    simp [parseOptGroup, ht]

theorem parseOptGroup_skip (letter letter' : Char) (hne : letter' ≠ letter)
    (hl : letter'.isDigit = false) (ds rest : List Char)
    (hds : ∀ c ∈ ds, c.isDigit = true) :
    parseOptGroup letter (ds ++ letter' :: rest) = (0, ds ++ letter' :: rest) := by
  have ht : takeDigits (ds ++ letter' :: rest) = (ds, letter' :: rest) :=
    takeDigits_append ds (letter' :: rest) hds (Or.inr ⟨letter', rest, rfl, hl⟩)
  cases ds with
  | nil =>
    simp only [List.nil_append] at ht
    simp [parseOptGroup, ht]
  | cons d ds' =>
    simp only [List.cons_append] at ht
    simp [parseOptGroup, ht, hne]

theorem parseOptGroup_nil (letter : Char) : parseOptGroup letter [] = (0, []) := rfl

theorem parse_core_PT (rest : List Char) :
    parse_duration_core ('P' :: 'T' :: rest) =
      if (parseOptGroup 'S' (parseOptGroup 'M' (parseOptGroup 'H' rest).2).2).2 = [] then
        (parseOptGroup 'H' rest).1 * 3600 +
          (parseOptGroup 'M' (parseOptGroup 'H' rest).2).1 * 60 +
          (parseOptGroup 'S' (parseOptGroup 'M' (parseOptGroup 'H' rest).2).2).1
      else 0 := rfl

theorem parse_core_groups (dh dm ds : Option (List Char))
    (h1 : ∀ x ∈ dh, isDigitRun x) (h2 : ∀ x ∈ dm, isDigitRun x)
    (h3 : ∀ x ∈ ds, isDigitRun x) :
    parse_duration_core ('P' :: 'T' :: (optPart 'H' dh ++ (optPart 'M' dm ++ optPart 'S' ds))) =
      optVal dh * 3600 + optVal dm * 60 + optVal ds := by
  cases dh with
  | none =>
    cases dm with
    | none =>
      cases ds with
      | none => simp [optPart, optVal, parse_core_PT, parseOptGroup_nil]
      | some c =>
        have hc := h3 c rfl
        have eH := parseOptGroup_skip 'H' 'S' (by decide) (by decide) c [] hc.2
        have eM := parseOptGroup_skip 'M' 'S' (by decide) (by decide) c [] hc.2
        have eS := parseOptGroup_part 'S' (by decide) c [] hc
        simp [optPart, optVal, parse_core_PT, eH, eM, eS]
    | some b =>
      have hb := h2 b rfl
      cases ds with
      | none =>
        have eH := parseOptGroup_skip 'H' 'M' (by decide) (by decide) b [] hb.2
        have eM := parseOptGroup_part 'M' (by decide) b [] hb
        simp [optPart, optVal, parse_core_PT, eH, eM, parseOptGroup_nil]
      | some c =>
        have hc := h3 c rfl
        have eH := parseOptGroup_skip 'H' 'M' (by decide) (by decide) b (c ++ 'S' :: []) hb.2
        have eM := parseOptGroup_part 'M' (by decide) b (c ++ 'S' :: []) hb
        have eS := parseOptGroup_part 'S' (by decide) c [] hc
        simp [optPart, optVal, parse_core_PT, eH, eM, eS]
  | some a =>
    have ha := h1 a rfl
    cases dm with
    | none =>
      cases ds with
      | none =>
        have eH := parseOptGroup_part 'H' (by decide) a [] ha
        simp [optPart, optVal, parse_core_PT, eH, parseOptGroup_nil]
      | some c =>
        have hc := h3 c rfl
        have eH := parseOptGroup_part 'H' (by decide) a (c ++ 'S' :: []) ha
        have eM := parseOptGroup_skip 'M' 'S' (by decide) (by decide) c [] hc.2
        have eS := parseOptGroup_part 'S' (by decide) c [] hc
        simp [optPart, optVal, parse_core_PT, eH, eM, eS]
    | some b =>
      have hb := h2 b rfl
      cases ds with
      | none =>
        have eH := parseOptGroup_part 'H' (by decide) a (b ++ 'M' :: []) ha
        have eM := parseOptGroup_part 'M' (by decide) b [] hb
        simp [optPart, optVal, parse_core_PT, eH, eM, parseOptGroup_nil]
      | some c =>
        have hc := h3 c rfl
        have eH := parseOptGroup_part 'H' (by decide) a (b ++ 'M' :: (c ++ 'S' :: [])) ha
        have eM := parseOptGroup_part 'M' (by decide) b (c ++ 'S' :: []) hb
        have eS := parseOptGroup_part 'S' (by decide) c [] hc
        simp [optPart, optVal, parse_core_PT, eH, eM, eS]

theorem takeDigits_inv (l : List Char) : ∀ ds rest : List Char,
    takeDigits l = (ds, rest) →
    l = ds ++ rest ∧ (∀ c ∈ ds, c.isDigit = true) ∧
      (rest = [] ∨ ∃ c rest2, rest = c :: rest2 ∧ c.isDigit = false) := by
  induction l with
  | nil =>
    intro ds rest ht
    simp [takeDigits] at ht
    obtain ⟨h1, h2⟩ := ht
    subst h1; subst h2
    exact ⟨rfl, by simp, Or.inl rfl⟩
  | cons c tl ih =>
    intro ds rest ht
    by_cases hc : c.isDigit = true
    · have hstep : takeDigits (c :: tl) = (c :: (takeDigits tl).1, (takeDigits tl).2) := by
        simp [takeDigits, hc]
      rw [hstep] at ht
      injection ht with ha hb
      subst ha; subst hb
      obtain ⟨ih1, ih2, ih3⟩ := ih (takeDigits tl).1 (takeDigits tl).2 rfl
      refine ⟨?_, ?_, ih3⟩
      · simp only [List.cons_append]
        rw [← ih1]
      · intro x hx
        rcases List.mem_cons.mp hx with h | h
        · subst h; exact hc
        · exact ih2 x h
    · have hstep : takeDigits (c :: tl) = ([], c :: tl) := by simp [takeDigits, hc]
      rw [hstep] at ht
      injection ht with ha hb
      subst ha; subst hb
      exact ⟨rfl, by simp, Or.inr ⟨c, tl, rfl, by simpa using hc⟩⟩

theorem parseOptGroup_inv (letter : Char) (l : List Char) :
    parseOptGroup letter l = (0, l) ∨
    ∃ ds rest, l = ds ++ letter :: rest ∧ ds ≠ [] ∧ (∀ c ∈ ds, c.isDigit = true) ∧
      parseOptGroup letter l = (digitsToNat ds, rest) := by
  rcases ht : takeDigits l with ⟨ds, rest⟩
  obtain ⟨hsplit, hdig, _⟩ := takeDigits_inv l ds rest ht
  cases ds with
  | nil => left; simp [parseOptGroup, ht]
  | cons d ds' =>
    cases rest with
    | nil => left; simp [parseOptGroup, ht]
    | cons c rest2 =>
      by_cases hc : c = letter
      · subst hc
        right
        exact ⟨d :: ds', rest2, hsplit, by simp, hdig, by simp [parseOptGroup, ht]⟩
      · left; simp [parseOptGroup, ht, hc]

theorem parseOptGroup_decomp (letter : Char) (l : List Char) :
    ∃ dg : Option (List Char), (∀ x ∈ dg, isDigitRun x) ∧
      l = optPart letter dg ++ (parseOptGroup letter l).2 ∧
      (parseOptGroup letter l).1 = optVal dg := by
  rcases parseOptGroup_inv letter l with h | ⟨ds, rest, hsplit, hne, hdig, h⟩
  · exact ⟨none, by simp, by simp [h, optPart], by simp [h, optVal]⟩
  · refine ⟨some ds, ?_, ?_, ?_⟩
    · intro x hx
      have hx' : x = ds := by simpa using hx.symm
      subst hx'
      exact ⟨hne, hdig⟩
    · rw [h, hsplit]
      simp [optPart, List.append_assoc]
    · simp [h, optVal]

theorem parse_core_inv (l : List Char) :
    parse_duration_core l = 0 ∨
    ∃ dh dm ds : Option (List Char),
      (∀ x ∈ dh, isDigitRun x) ∧ (∀ x ∈ dm, isDigitRun x) ∧ (∀ x ∈ ds, isDigitRun x) ∧
      l = 'P' :: 'T' :: (optPart 'H' dh ++ (optPart 'M' dm ++ optPart 'S' ds)) ∧
      parse_duration_core l = optVal dh * 3600 + optVal dm * 60 + optVal ds := by
  rw [parse_duration_core.eq_def]
  split
  case _ rest =>
    obtain ⟨dh, hdh, hsH, hvH⟩ := parseOptGroup_decomp 'H' rest
    obtain ⟨dm, hdm, hsM, hvM⟩ := parseOptGroup_decomp 'M' (parseOptGroup 'H' rest).2
    obtain ⟨ds, hds, hsS, hvS⟩ :=
      parseOptGroup_decomp 'S' (parseOptGroup 'M' (parseOptGroup 'H' rest).2).2
    by_cases hend : (parseOptGroup 'S' (parseOptGroup 'M' (parseOptGroup 'H' rest).2).2).2 = []
    · right
      refine ⟨dh, dm, ds, hdh, hdm, hds, ?_, ?_⟩
      · rw [hsH, hsM, hsS, hend]
        simp [List.append_assoc]
      · simp [hend, hvH, hvM, hvS]
    · left
      simp [hend]
  case _ =>
    left
    rfl

/-- C3: the duration parser maps `PT` + optional hours/minutes/seconds
components to `h*3600 + m*60 + s`, returns 0 on any string not matching the
pattern and on a missing (`None`) value, and never fails (it is a total
function); the spec's examples are included. -/
theorem parse_duration_correct :
    (∀ s h m sec, MatchesPT s h m sec → parse_duration (some s) = h * 3600 + m * 60 + sec) ∧
    (∀ s, (¬ ∃ h m sec, MatchesPT s h m sec) → parse_duration (some s) = 0) ∧
    parse_duration none = 0 ∧
    parse_duration (some "PT4M13S") = 253 ∧
    parse_duration (some "PT1H") = 3600 ∧
    parse_duration (some "PT") = 0 ∧
    parse_duration (some "PT45S") = 45 ∧
    parse_duration (some "bogus") = 0 := by
  refine ⟨?_, ?_, by decide, by decide, by decide, by decide, by decide, by decide⟩
  · intro s h m sec hm
    obtain ⟨dh, dm, ds, h1, h2, h3, hv1, hv2, hv3, hs⟩ := hm
    subst hv1; subst hv2; subst hv3
    show parse_duration_core s.toList = _
    rw [hs]
    exact parse_core_groups dh dm ds h1 h2 h3
  · intro s hnone
    rcases parse_core_inv s.toList with h | ⟨dh, dm, ds, h1, h2, h3, hshape, hval⟩
    · exact h
    · exact absurd ⟨optVal dh, optVal dm, optVal ds, dh, dm, ds, h1, h2, h3, rfl, rfl, rfl, hshape⟩
        hnone

/-- Witness for C3 at `PT2H`, a string matching the pattern with a 2-hour
component only. -/
theorem parse_duration_correct_witness : parse_duration (some "PT2H") = 7200 := by
  have hm : MatchesPT "PT2H" 2 0 0 := by
    refine ⟨some ['2'], none, none, ?_, ?_, ?_, by decide, by decide, by decide, by decide⟩
    · intro x hx
      have hx' : x = ['2'] := by simpa using hx.symm
      subst hx'
      exact ⟨by decide, by decide⟩
    · intro x hx; simp at hx
    · intro x hx; simp at hx
  have h := parse_duration_correct.1 "PT2H" 2 0 0 hm
  norm_num at h
  exact h

end FetchVideos
